import Mathlib

/-!
Verification of the AlphaHunter realtime background service
(`src/alphahunter/realtime_service.py`).

The Python module is embedded shallowly:

* file NAMES are Lean `String`s; `pathlib.Path.with_suffix`, `Path.stem`,
  `Path.suffix`, `str.split("_")`, `str.replace(".csv", "")` and the
  `"prices_*.csv"` / `"prices_*.csv.gz"` glob patterns are modelled as
  executable functions on character lists;
* `datetime.date` is a `(year, month, day)` record with Gregorian
  day-by-day arithmetic (`date - timedelta(days=n)`), lexicographic
  comparison, `strftime("%Y%m%d")` printing and `strptime(_, "%Y%m%d")`
  parsing (the parser is faithful on the zero-padded 8-digit strings the
  service itself produces);
* the directory of log files is a record of csv entries (name, row count)
  in directory order plus a list of archive names; `_append_log` with its
  compress / retention housekeeping is a function on that record, with an
  explicit fault model telling which per-file compressions / deletions
  fail (an uncaught failure is returned as an "exception propagated"
  flag);
* one iteration of the `run_service` scheduler body is a pure function
  from (config, state, inputs observed this iteration) to (state, the
  trace of filesystem / sleep effects, whether the loop exits); the whole
  loop is its fold over a list of per-iteration inputs.
-/

/-! ### Characters and digits -/

/-- The ASCII digit character for `n` (`0 ≤ n ≤ 9`). -/
def digitChar (n : Nat) : Char := Char.ofNat (48 + n)

/-- Inverse of `digitChar`: the numeric value of an ASCII digit, else `none`. -/
def charDigit (c : Char) : Option Nat :=
  if 48 ≤ c.toNat ∧ c.toNat ≤ 57 then some (c.toNat - 48) else none

/-- Two zero-padded decimal digits (`strftime` `%m` / `%d` / `%H` / `%M` / `%S`). -/
def pad2Chars (n : Nat) : List Char := [digitChar (n / 10 % 10), digitChar (n % 10)]

/-- Four decimal digits (`strftime` `%Y` for years up to 9999). -/
def year4Chars (y : Nat) : List Char :=
  [digitChar (y / 1000 % 10), digitChar (y / 100 % 10), digitChar (y / 10 % 10),
   digitChar (y % 10)]

/-! ### Dates (`datetime.date`) -/

/-- A calendar date, as in `datetime.date`. -/
structure Date where
  y : Nat
  m : Nat
  d : Nat
deriving DecidableEq, Repr

/-- Gregorian leap-year rule. -/
def isLeap (y : Nat) : Bool := (y % 4 == 0 && y % 100 != 0) || y % 400 == 0

/-- Number of days in month `m` of year `y`. -/
def daysInMonth (y m : Nat) : Nat :=
  if m = 2 then (if isLeap y then 29 else 28)
  else if m = 4 ∨ m = 6 ∨ m = 9 ∨ m = 11 then 30
  else 31

/-- A well-formed calendar date. -/
def Date.validb (a : Date) : Bool :=
  decide (1 ≤ a.m) && decide (a.m ≤ 12) && decide (1 ≤ a.d) &&
    decide (a.d ≤ daysInMonth a.y a.m)

/-- The previous calendar day. -/
def predDay (a : Date) : Date :=
  if 2 ≤ a.d then ⟨a.y, a.m, a.d - 1⟩
  else if 2 ≤ a.m then ⟨a.y, a.m - 1, daysInMonth a.y (a.m - 1)⟩
  else ⟨a.y - 1, 12, 31⟩

/-- `a - timedelta(days = n)`. -/
def subDays : Date → Nat → Date
  | a, 0 => a
  | a, n + 1 => subDays (predDay a) n

/-- `datetime.date` comparison: lexicographic on (year, month, day). -/
def Date.ltb (a b : Date) : Bool :=
  decide (a.y < b.y) ||
    (decide (a.y = b.y) &&
      (decide (a.m < b.m) || (decide (a.m = b.m) && decide (a.d < b.d))))

/-- `strftime("%Y%m%d")` as a character list. -/
def dayChars (a : Date) : List Char := year4Chars a.y ++ pad2Chars a.m ++ pad2Chars a.d

/-- `strftime("%Y%m%d")`. -/
def dayStr (a : Date) : String := String.mk (dayChars a)

/-- `datetime.strptime(s, "%Y%m%d").date()` on the zero-padded 8-digit strings
the service produces: parse exactly eight digits, then apply the constructor
validation of `datetime` (year ≥ 1, month 1–12, day within the month). -/
def strptimeDate (s : String) : Option Date :=
  match s.toList with
  | [c1, c2, c3, c4, c5, c6, c7, c8] =>
    match charDigit c1, charDigit c2, charDigit c3, charDigit c4,
          charDigit c5, charDigit c6, charDigit c7, charDigit c8 with
    | some a1, some a2, some a3, some a4, some a5, some a6, some a7, some a8 =>
      let y := a1 * 1000 + a2 * 100 + a3 * 10 + a4
      let mo := a5 * 10 + a6
      let dy := a7 * 10 + a8
      if 1 ≤ y ∧ 1 ≤ mo ∧ mo ≤ 12 ∧ 1 ≤ dy ∧ dy ≤ daysInMonth y mo then
        some ⟨y, mo, dy⟩
      else none
    | _, _, _, _, _, _, _, _ => none
  | _ => none

/-! ### Timestamps and the trading-time predicate -/

/-- The fields of a `datetime` instant the service consults: its calendar
date, `weekday()` (0 = Monday … 6 = Sunday) and time of day. -/
structure DateTime where
  date : Date
  weekday : Nat
  hour : Nat
  minute : Nat
  second : Nat
deriving DecidableEq, Repr

/-- `is_trading_time_now` from `realtime_service.py`: China A-share trading
hours, 09:30–11:30 and 13:00–15:00 on Monday–Friday. -/
def is_trading_time_now (dt : DateTime) : Bool :=
  if 5 ≤ dt.weekday then false
  else
    let hm := dt.hour * 100 + dt.minute
    (decide (930 ≤ hm) && decide (hm ≤ 1130)) ||
      (decide (1300 ≤ hm) && decide (hm ≤ 1500))

/-- `strftime("%Y-%m-%d %H:%M:%S")`. -/
def fmtDT (t : DateTime) : String :=
  String.mk (year4Chars t.date.y ++ ['-'] ++ pad2Chars t.date.m ++ ['-'] ++
    pad2Chars t.date.d ++ [' '] ++ pad2Chars t.hour ++ [':'] ++
    pad2Chars t.minute ++ [':'] ++ pad2Chars t.second)

/-! ### Path names (`pathlib.Path` on a single file name) -/

/-- Characters of `Path.stem`-style suffix stripping: everything before the
last dot (the whole name when there is no dot). All names the service builds
have a proper stem, so the last-dot rule coincides with `pathlib`. -/
def stemChars (s : List Char) : List Char :=
  match s.reverse.dropWhile (fun c => c ≠ '.') with
  | [] => s
  | _ :: rest => rest.reverse

/-- Characters of `Path.suffix`: the last dot and what follows it, or `[]`. -/
def sufChars (s : List Char) : List Char :=
  let post := s.reverse.takeWhile (fun c => c ≠ '.')
  if post.length = s.length then [] else '.' :: post.reverse

/-- `Path.stem` (of a bare file name). -/
def pyStem (s : String) : String := String.mk (stemChars s.toList)

/-- `Path.suffix` (of a bare file name). -/
def pySuffix (s : String) : String := String.mk (sufChars s.toList)

/-- `Path.with_suffix`: replace the (possibly empty) suffix of the name. -/
def withSuffix (s suf : String) : String := pyStem s ++ suf

/-- `str.split("_")` (single-character separator). -/
def splitOnChar (sep : Char) : List Char → List (List Char)
  | [] => [[]]
  | c :: rest =>
    let r := splitOnChar sep rest
    if c = sep then [] :: r
    else
      match r with
      | [] => [[c]]
      | h :: t => (c :: h) :: t

/-- `str.replace(".csv", "")`: delete every (left-to-right, non-overlapping)
occurrence of `".csv"`. -/
def stripCsvOcc : List Char → List Char
  | '.' :: 'c' :: 's' :: 'v' :: rest => stripCsvOcc rest
  | c :: rest => c :: stripCsvOcc rest
  | [] => []

/-- Does a name match the glob pattern `prices_*.csv`? -/
def isCsvLog (n : String) : Bool :=
  List.isPrefixOf "prices_".toList n.toList && List.isSuffixOf ".csv".toList n.toList

/-- Does a name match the glob pattern `prices_*.csv.gz`? -/
def isGzLog (n : String) : Bool :=
  List.isPrefixOf "prices_".toList n.toList && List.isSuffixOf ".csv.gz".toList n.toList

/-! ### The atomic-write primitives (claim C1)

`_atomic_write_csv`, `_atomic_write_json` and `_write_control` are modelled by
the trace of filesystem operations they perform on names. -/

/-- A filesystem-level operation on names. -/
inductive FEv
  | writeFile (name : String)
  | rename (src dst : String)
deriving DecidableEq, Repr

/-- File name of `CONTROL_PATH`. -/
def CONTROL_PATH : String := "control.json"

/-- File name of `STATUS_PATH`. -/
def STATUS_PATH : String := "service_status.json"

/-- File name of `LATEST_PATH`. -/
def LATEST_PATH : String := "realtime_latest.csv"

/-- Trace of `_atomic_write_csv(df, path)` / `_atomic_write_json(obj, path)`:
`tmp = path.with_suffix(path.suffix + ".tmp")`, write `tmp`, `tmp.replace(path)`. -/
def atomic_write_events (path : String) : List FEv :=
  [FEv.writeFile (withSuffix path (pySuffix path ++ ".tmp")),
   FEv.rename (withSuffix path (pySuffix path ++ ".tmp")) path]

/-- Trace of `_write_control`: `tmp = CONTROL_PATH.with_suffix(".tmp")`,
write `tmp`, `tmp.replace(CONTROL_PATH)`. -/
def write_control_events : List FEv :=
  [FEv.writeFile (withSuffix CONTROL_PATH ".tmp"),
   FEv.rename (withSuffix CONTROL_PATH ".tmp") CONTROL_PATH]

/-! ### The control channel (claim C5) -/

/-- A parsed `control.json`. -/
structure Ctrl where
  paused : Bool
  stop : Bool
deriving DecidableEq, Repr

/-- The persisted control file: absent, unparseable, or a well-formed state. -/
inductive CtrlFile
  | absent
  | corrupt
  | good (c : Ctrl)
deriving DecidableEq, Repr

/-- `_read_control`: defaults `{paused: False, stop: False}` when the file is
missing or does not parse. -/
def read_control : CtrlFile → Ctrl
  | CtrlFile.good c => c
  | _ => ⟨false, false⟩

/-- `_write_control`: persist `{"paused": bool(...), "stop": bool(...)}`
(an atomic replace of the file contents). -/
def write_control (c : Ctrl) : CtrlFile := CtrlFile.good ⟨c.paused, c.stop⟩

/-- `set_service_control(paused=?, stop=?)`: read the current state, overwrite
exactly the provided fields, write back. -/
def set_service_control (p s : Option Bool) (f : CtrlFile) : CtrlFile :=
  let c := read_control f
  let c1 := match p with | some b => { c with paused := b } | none => c
  let c2 := match s with | some b => { c1 with stop := b } | none => c1
  write_control c2

/-! ### Service configuration (claim C10) -/

/-- JSON-ish values that can sit in the service configuration dictionary. -/
inductive JVal
  | str (v : String)
  | num (v : ℚ)
  | boolean (v : Bool)
  | strList (v : List String)
  | null
deriving DecidableEq, Repr

/-- A Python dict, as an insertion-ordered association list (unique keys). -/
abbrev Dict := List (String × JVal)

/-- First binding of `k` (Python dict lookup; keys are unique). -/
def dlookup (k : String) : Dict → Option JVal
  | [] => none
  | (k0, v) :: rest => if k0 = k then some v else dlookup k rest

/-- `d[k] = v` on a dict: replace the binding in place, else append. -/
def setKey (l : Dict) (k : String) (v : JVal) : Dict :=
  if (l.map Prod.fst).contains k then
    l.map (fun e => if e.1 = k then (k, v) else e)
  else l ++ [(k, v)]

/-- `base.update(upd)`: apply the bindings of `upd` in order. -/
def dupdate (base : Dict) : Dict → Dict
  | [] => base
  | (k, v) :: rest => dupdate (setKey base k v) rest

/-- `DEFAULT_SERVICE_CONFIG`. -/
def DEFAULT_SERVICE_CONFIG : Dict :=
  [("tracked_codes", JVal.strList []),
   ("poll_interval_sec", JVal.num 300),
   ("alert_threshold_pct", JVal.num 3),
   ("retention_days", JVal.num 7)]

/-- The dict `save_config` persists: a copy of the defaults updated with the
input's bindings at recognized keys only. -/
def clean_config (cfg : Dict) : Dict :=
  dupdate DEFAULT_SERVICE_CONFIG
    (cfg.filter (fun e => (DEFAULT_SERVICE_CONFIG.map Prod.fst).contains e.1))

/-- `save_config`: overwrite the config file with `clean_config cfg`,
whatever the file held before. -/
def save_config (cfg : Dict) (_fileBefore : Option Dict) : Option Dict :=
  some (clean_config cfg)

/-! ### The log directory and `_append_log` (claims C3, C6) -/

/-- The `logs/` directory: plain csv log files as `(name, data row count)` in
directory order, and compressed archive names. -/
structure LogFS where
  csvs : List (String × Nat)
  gzs : List String
deriving DecidableEq, Repr

/-- Which per-file operations of one `_append_log` run fail (raise). -/
structure Fault where
  compressFails : String → Bool
  deleteFails : String → Bool

/-- The fault-free run. -/
def noFault : Fault := ⟨fun _ => false, fun _ => false⟩

/-- Today's log file name, `f"prices_{day}.csv"`. -/
def logName (day : Date) : String := "prices_" ++ dayStr day ++ ".csv"

/-- The archive name for a csv log `p`: `p.with_suffix(p.suffix + ".gz")`. -/
def gzName (p : String) : String := withSuffix p (pySuffix p ++ ".gz")

/-- `df.to_csv(log_path, mode="a", header=not exists)`: create the file or
append `rows` data rows to it. -/
def appendCsv (fs : LogFS) (name : String) (rows : Nat) : LogFS :=
  if (fs.csvs.map Prod.fst).contains name then
    { fs with csvs := fs.csvs.map (fun e => if e.1 = name then (e.1, e.2 + rows) else e) }
  else { fs with csvs := fs.csvs ++ [(name, rows)] }

/-- The compression pass of `_append_log` over the globbed csv names: every
non-today log without an existing archive is compressed (uncaught: a failure
here propagates, aborting the rest — second component `true`), then its
original is unlinked inside `try/except pass` (a failure here is swallowed). -/
def compressLoop (today : String) (fl : Fault) : List String → LogFS → LogFS × Bool
  | [], fs => (fs, false)
  | p :: rest, fs =>
    if p ≠ today then
      if fs.gzs.contains (gzName p) then compressLoop today fl rest fs
      else if fl.compressFails p then (fs, true)
      else
        let fs1 : LogFS := { fs with gzs := fs.gzs ++ [gzName p] }
        let fs2 : LogFS :=
          if fl.deleteFails p then fs1
          else { fs1 with csvs := fs1.csvs.filter (fun e => e.1 ≠ p) }
        compressLoop today fl rest fs2
    else compressLoop today fl rest fs

/-- The date a housekeeping pass reads off an archive name:
`gz.stem.split("_")[1].replace(".csv", "")` parsed with `strptime("%Y%m%d")`;
`none` when any of those steps raises. -/
def gzEncodedDate (g : String) : Option Date :=
  match (splitOnChar '_' (pyStem g).toList).drop 1 with
  | [] => none
  | f :: _ => strptimeDate (String.mk (stripCsvOcc f))

/-- The retention pass of `_append_log` over the globbed archive names: delete
every archive whose encoded date is before the cutoff; parse and unlink run
inside `try/except continue`, so every failure is isolated to its file. -/
def cleanupLoop (cutoff : Date) (fl : Fault) : List String → LogFS → LogFS
  | [], fs => fs
  | g :: rest, fs =>
    let fs' :=
      match gzEncodedDate g with
      | none => fs
      | some d =>
        if Date.ltb d cutoff && !fl.deleteFails g then
          { fs with gzs := fs.gzs.filter (fun x => x ≠ g) }
        else fs
    cleanupLoop cutoff fl rest fs'

/-- `_append_log(df, now, retention_days)` with `rows` data rows in `df`:
append today's records, then compress other logs, then delete expired
archives. The second component is `true` when an uncaught (compression)
failure propagated out of the call, aborting the remaining housekeeping. -/
def append_log (fs : LogFS) (rows : Nat) (now : Date) (retention : Nat)
    (fl : Fault) : LogFS × Bool :=
  let today := logName now
  let fs0 := appendCsv fs today rows
  let cands := (fs0.csvs.map Prod.fst).filter isCsvLog
  let pr := compressLoop today fl cands fs0
  if pr.2 then (pr.1, true)
  else
    let cutoff := subDays now retention
    let gzCands := pr.1.gzs.filter isGzLog
    (cleanupLoop cutoff fl gzCands pr.1, false)

/-! ### The scheduler loop `run_service` (claims C2, C7, C8, C9) -/

/-- The full `service_status.json` object the loop publishes. -/
structure Status where
  running : Bool
  pid : Nat
  startTime : String
  lastPollTime : Option String
  progressPct : ℚ
  errorCount : Nat
  trading : Bool
  paused : Bool
  stopRequested : Bool
deriving DecidableEq, Repr

/-- What the status file can hold: a full status object, or the degenerate
`{"progress_pct": …}` dict the end-of-iteration update writes when the file
could not be read back. -/
inductive StatusFile
  | full (s : Status)
  | progressOnly (pct : ℚ)
deriving DecidableEq, Repr

/-- `realtime_latest.csv` content: a tracked snapshot with its row count, or
the one-row off-hours heartbeat (`采集时间`, `状态="非交易时段"`). -/
inductive LatestFile
  | snapshot (rows : Nat)
  | heartbeat (collectedAt : String)
deriving DecidableEq, Repr

/-- Number of data rows of the latest file. -/
def LatestFile.rowCount : LatestFile → Nat
  | LatestFile.snapshot n => n
  | LatestFile.heartbeat _ => 1

/-- The files the loop itself owns. -/
structure FS where
  logs : LogFS
  latest : Option LatestFile
  statusF : Option StatusFile
deriving DecidableEq, Repr

/-- Loop-carried service state. -/
structure SvcState where
  errorCount : Nat
  fs : FS
deriving DecidableEq, Repr

/-- The configuration values `run_service` reads once at start. -/
structure Cfg where
  tracked : List String
  pollInterval : Nat
  retention : Nat
  pid : Nat
  startTime : String

/-- Outcome of the `one_poll` call: the provider raised, or a tracked
snapshot with `rows` rows came back. -/
inductive PollOutcome
  | raise
  | ok (rows : Nat)
deriving DecidableEq, Repr

/-- What one loop iteration observes from the outside world. -/
structure IterInput where
  now : DateTime
  ctrlFile : CtrlFile
  poll : PollOutcome
  elapsed : ℚ
  fault : Fault

/-- One observable effect of a loop iteration. -/
inductive Ev
  | statusWrite (s : Status)
  | latestWrite (f : LatestFile)
  | logAppend (name : String) (rows : Nat)
  | statusRewrite (f : StatusFile)
  | sleepSec (n : Nat)
deriving DecidableEq, Repr

/-- How the branch part of an iteration ended. -/
inductive BranchExit
  | stopExit
  | pausedCont
  | normal
deriving DecidableEq, Repr

/-- The branch body of one `while True` iteration of `run_service`: read the
control state, take the stop / paused / trading-poll / idle branch, returning
the new state, the effect trace and how the branch ended. -/
def iterBranch (cfg : Cfg) (st : SvcState) (inp : IterInput) :
    SvcState × List Ev × BranchExit :=
  let now := inp.now
  let ctrl := read_control inp.ctrlFile
  let trading := is_trading_time_now now
  if ctrl.stop then
    let s : Status := ⟨false, cfg.pid, cfg.startTime, none, 0, st.errorCount,
      trading, ctrl.paused, true⟩
    ({ st with fs := { st.fs with statusF := some (StatusFile.full s) } },
     [Ev.statusWrite s], BranchExit.stopExit)
  else if ctrl.paused then
    let s : Status := ⟨true, cfg.pid, cfg.startTime, none, 0, st.errorCount,
      trading, true, false⟩
    ({ st with fs := { st.fs with statusF := some (StatusFile.full s) } },
     [Ev.statusWrite s, Ev.sleepSec 2], BranchExit.pausedCont)
  else if trading && !cfg.tracked.isEmpty then
    match inp.poll with
    | PollOutcome.raise =>
      ({ st with errorCount := st.errorCount + 1 }, [Ev.sleepSec 5],
       BranchExit.normal)
    | PollOutcome.ok rows =>
      if 0 < rows then
        let fs1 : FS := { st.fs with latest := some (LatestFile.snapshot rows) }
        let pr := append_log fs1.logs rows now.date cfg.retention inp.fault
        let fs2 : FS := { fs1 with logs := pr.1 }
        let evs0 := [Ev.latestWrite (LatestFile.snapshot rows),
                     Ev.logAppend (logName now.date) rows]
        if pr.2 then
          ({ errorCount := st.errorCount + 1, fs := fs2 },
           evs0 ++ [Ev.sleepSec 5], BranchExit.normal)
        else
          let s : Status := ⟨true, cfg.pid, cfg.startTime, some (fmtDT now), 0,
            st.errorCount, trading, false, false⟩
          ({ errorCount := st.errorCount,
             fs := { fs2 with statusF := some (StatusFile.full s) } },
           evs0 ++ [Ev.statusWrite s], BranchExit.normal)
      else
        let s : Status := ⟨true, cfg.pid, cfg.startTime, some (fmtDT now), 0,
          st.errorCount, trading, false, false⟩
        ({ st with fs := { st.fs with statusF := some (StatusFile.full s) } },
         [Ev.statusWrite s], BranchExit.normal)
  else
    let hb := LatestFile.heartbeat (fmtDT now)
    let s : Status := ⟨true, cfg.pid, cfg.startTime, none, 0, st.errorCount,
      trading, false, false⟩
    let fs' : FS := { st.fs with latest := some hb, statusF := some (StatusFile.full s) }
    ({ st with fs := fs' },
     [Ev.latestWrite hb, Ev.statusWrite s], BranchExit.normal)

/-- `max(0.0, min(100.0, (elapsed / poll_interval) * 100.0))`. -/
def clampPct (elapsed : ℚ) (interval : Nat) : ℚ :=
  max 0 (min 100 (elapsed / (interval : ℚ) * 100))

/-- The end-of-iteration progress update: re-read the status file (an
unreadable file yields the empty dict) and overwrite its `progress_pct`. -/
def progressUpdate (f : Option StatusFile) (pct : ℚ) : StatusFile :=
  match f with
  | some (StatusFile.full s) => StatusFile.full { s with progressPct := pct }
  | some (StatusFile.progressOnly _) => StatusFile.progressOnly pct
  | none => StatusFile.progressOnly pct

/-- One full iteration of the `run_service` loop: the branch body, then — for
a branch that fell through and is not in single-iteration mode — the progress
rewrite of the status file and the full interval sleep. The final component
tells whether the loop exited. -/
def runIteration (cfg : Cfg) (st : SvcState) (inp : IterInput)
    (loopOnce : Bool) : SvcState × List Ev × Bool :=
  let r := iterBranch cfg st inp
  match r.2.2 with
  | BranchExit.stopExit => (r.1, r.2.1, true)
  | BranchExit.pausedCont => (r.1, r.2.1, loopOnce)
  | BranchExit.normal =>
    if loopOnce then (r.1, r.2.1, true)
    else
      let cur := progressUpdate r.1.fs.statusF (clampPct inp.elapsed cfg.pollInterval)
      ({ r.1 with fs := { r.1.fs with statusF := some cur } },
       r.2.1 ++ [Ev.statusRewrite cur, Ev.sleepSec cfg.pollInterval], false)

/-- The `while True` loop of `run_service`, driven by the list of
per-iteration observations (the list runs out = the service is still going). -/
def runLoop (cfg : Cfg) (loopOnce : Bool) :
    SvcState → List IterInput → SvcState × List Ev
  | st, [] => (st, [])
  | st, inp :: rest =>
    let r := runIteration cfg st inp loopOnce
    if r.2.2 then (r.1, r.2.1)
    else
      let r2 := runLoop cfg loopOnce r.1 rest
      (r2.1, r.2.1 ++ r2.2)

/-- Did the iteration take the trading-poll branch and fail inside the `try`
(the provider raised, or the log housekeeping raised)? -/
def iterFailed (cfg : Cfg) (st : SvcState) (inp : IterInput) : Bool :=
  let ctrl := read_control inp.ctrlFile
  !ctrl.stop && !ctrl.paused && is_trading_time_now inp.now &&
    !cfg.tracked.isEmpty &&
    (match inp.poll with
     | PollOutcome.raise => true
     | PollOutcome.ok rows =>
       decide (0 < rows) &&
         (append_log st.fs.logs rows inp.now.date cfg.retention inp.fault).2)

/-- Number of full-status publishes (`_atomic_write_json(full object, STATUS_PATH)`)
in a trace. -/
def countFullStatus (evs : List Ev) : Nat :=
  (evs.filter (fun e => match e with | Ev.statusWrite _ => true | _ => false)).length

/-! ### Concrete inputs and auxiliary definitions used by the theorems -/

/-- The final status object the stop branch publishes. -/
def stopStatus (cfg : Cfg) (st : SvcState) (inp : IterInput) : Status :=
  ⟨false, cfg.pid, cfg.startTime, none, 0, st.errorCount,
   is_trading_time_now inp.now, (read_control inp.ctrlFile).paused, true⟩

/-- Concrete witness inputs: a config with one tracked code. -/
def wCfg : Cfg := ⟨["000001"], 300, 7, 42, "2025-03-03 09:00:00"⟩

/-- Concrete witness inputs: the starting service state. -/
def wSt : SvcState := ⟨0, ⟨⟨[], []⟩, none, none⟩⟩

/-- Monday 2025-03-03, 10:00 — inside trading hours. -/
def wTradingNow : DateTime := ⟨⟨2025, 3, 3⟩, 0, 10, 0, 0⟩

/-- Monday 2025-03-03, 12:00 — the lunch break, outside trading hours. -/
def wNoonNow : DateTime := ⟨⟨2025, 3, 3⟩, 0, 12, 0, 0⟩

/-- An iteration observation whose provider call raises. -/
def wRaiseInput : IterInput :=
  ⟨wTradingNow, CtrlFile.good ⟨false, false⟩, PollOutcome.raise, 0, noFault⟩

/-- An off-hours iteration observation. -/
def wOffInput : IterInput :=
  ⟨wNoonNow, CtrlFile.good ⟨false, false⟩, PollOutcome.ok 1, 0, noFault⟩

/-- An iteration observation with the stop flag set. -/
def wStopInput : IterInput :=
  ⟨wTradingNow, CtrlFile.good ⟨false, true⟩, PollOutcome.ok 1, 0, noFault⟩

/-- Data-row count of a named csv log file, when it exists. -/
def csvRows (fs : LogFS) (n : String) : Option Nat :=
  (fs.csvs.find? (fun e => decide (e.1 = n))).map Prod.snd

/-- A fault making the compression of one specific log fail. -/
def cexFault : Fault := ⟨fun p => p == "prices_20250101.csv", fun _ => false⟩

/-- A fault making the deletion of one specific log fail. -/
def wDelFault : Fault := ⟨fun _ => false, fun p => p == "prices_20250101.csv"⟩

/-- The canonical archive name for the log of `day`. -/
def gzArch (day : Date) : String := "prices_" ++ dayStr day ++ ".csv.gz"

/-- Does the retention pass delete archive `x`? (parse the encoded date,
compare against the cutoff, and the file's unlink must not fail). -/
def delp (cutoff : Date) (fl : Fault) (x : String) : Bool :=
  match gzEncodedDate x with
  | none => false
  | some dd => Date.ltb dd cutoff && !fl.deleteFails x

/-- Concrete witness date. -/
def wD : Date := ⟨2025, 5, 20⟩

/-- Concrete witness input for the config model: one recognized key, one junk key. -/
def wCfgDict : Dict :=
  [("tracked_codes", JVal.strList ["000001"]), ("bogus", JVal.num 1)]

/-- Claim C4: for a timestamp with a well-formed minute field, the trading-time
predicate is true exactly on Monday–Friday with the time of day inside
09:30–11:30 or 13:00–15:00, all four boundary values included. -/
theorem is_trading_iff (dt : DateTime) (hmin : dt.minute < 60) :
    is_trading_time_now dt = true ↔
      (dt.weekday ≤ 4 ∧
        ((9 * 60 + 30 ≤ dt.hour * 60 + dt.minute ∧ dt.hour * 60 + dt.minute ≤ 11 * 60 + 30) ∨
         (13 * 60 ≤ dt.hour * 60 + dt.minute ∧ dt.hour * 60 + dt.minute ≤ 15 * 60))) := by
  unfold is_trading_time_now
  split
  · simp only [Bool.false_eq_true, false_iff]
    omega
  · simp only [Bool.or_eq_true, Bool.and_eq_true, decide_eq_true_eq]
    omega

/-- Claim C5: over any well-formed persisted control state, a `set` that gives
only a subset of {paused, stop} merges: given fields overwrite, omitted fields
keep their persisted values, and a subsequent `get` returns exactly that. -/
theorem control_merge (c : Ctrl) (p s : Option Bool) :
    read_control (set_service_control p s (CtrlFile.good c)) =
      ⟨p.getD c.paused, s.getD c.stop⟩ := by
  cases p <;> cases s <;> rfl

/-- Claim C1 (counterexample): the control write's temporary file is
`control.tmp` — the suffix of `control.json` is replaced, not extended — so it
is not named `path + \".tmp\"` as the claim states for all three writes. -/
theorem write_control_cex :
    write_control_events =
      [FEv.writeFile "control.tmp", FEv.rename "control.tmp" CONTROL_PATH] ∧
    "control.tmp" ≠ CONTROL_PATH ++ ".tmp" := by
  constructor
  · rfl
  · decide

/-- Claim C1 (amended): each persisted write stages its content in a temporary
file and then renames it onto the target; the status JSON and latest CSV use
`path + \".tmp\"`, while the control JSON uses `control.tmp`. -/
theorem atomic_write_shapes :
    atomic_write_events STATUS_PATH =
      [FEv.writeFile (STATUS_PATH ++ ".tmp"),
       FEv.rename (STATUS_PATH ++ ".tmp") STATUS_PATH] ∧
    atomic_write_events LATEST_PATH =
      [FEv.writeFile (LATEST_PATH ++ ".tmp"),
       FEv.rename (LATEST_PATH ++ ".tmp") LATEST_PATH] ∧
    write_control_events =
      [FEv.writeFile "control.tmp", FEv.rename "control.tmp" CONTROL_PATH] := by
  refine ⟨rfl, rfl, rfl⟩

/-- Claim C9: if the provider raises during a trading-time poll, the iteration
increments `error_count` by exactly one, the loop does not exit, and it
proceeds through a fixed 5-second backoff to the next iteration. -/
theorem provider_failure_iter (cfg : Cfg) (st : SvcState) (inp : IterInput)
    (hc : read_control inp.ctrlFile = ⟨false, false⟩)
    (ht : is_trading_time_now inp.now = true)
    (hne : cfg.tracked ≠ [])
    (hp : inp.poll = PollOutcome.raise) :
    (runIteration cfg st inp false).1.errorCount = st.errorCount + 1 ∧
    (runIteration cfg st inp false).2.2 = false ∧
    (runIteration cfg st inp false).2.1 =
      [Ev.sleepSec 5,
       Ev.statusRewrite (progressUpdate st.fs.statusF (clampPct inp.elapsed cfg.pollInterval)),
       Ev.sleepSec cfg.pollInterval] := by
  have hne' : cfg.tracked.isEmpty = false := by
    cases h : cfg.tracked with
    | nil => exact absurd h hne
    | cons a l => rfl
  simp [runIteration, iterBranch, hc, ht, hne', hp]

/-- Claim C7: an off-hours (or no-tracked-codes) single-shot iteration
overwrites the latest file with a single heartbeat record, leaves the log
directory untouched, appends nothing, and exits. -/
theorem off_hours_iter (cfg : Cfg) (st : SvcState) (inp : IterInput)
    (hc : read_control inp.ctrlFile = ⟨false, false⟩)
    (hoff : is_trading_time_now inp.now = false ∨ cfg.tracked = []) :
    (runIteration cfg st inp true).1.fs.latest =
      some (LatestFile.heartbeat (fmtDT inp.now)) ∧
    ((runIteration cfg st inp true).1.fs.latest.map LatestFile.rowCount) = some 1 ∧
    (runIteration cfg st inp true).1.fs.logs = st.fs.logs ∧
    (∀ n k, Ev.logAppend n k ∉ (runIteration cfg st inp true).2.1) ∧
    (runIteration cfg st inp true).2.2 = true := by
  have hcond : (is_trading_time_now inp.now && !cfg.tracked.isEmpty) = false := by
    rcases hoff with h | h
    · simp [h]
    · simp [h]
  simp [runIteration, iterBranch, hc, hcond, LatestFile.rowCount]


/-- Claim C8: when the control state read at the top of an iteration has
`stop = true`, the whole remaining loop reduces to one final status write with
`running = false` and `stop_requested = true`; no poll, log append, or further
status write happens in any later iteration. -/
theorem stop_halts (cfg : Cfg) (lo : Bool) (st : SvcState) (inp : IterInput)
    (rest : List IterInput)
    (hstop : (read_control inp.ctrlFile).stop = true) :
    runLoop cfg lo st (inp :: rest) =
      ({ st with fs := { st.fs with
          statusF := some (StatusFile.full (stopStatus cfg st inp)) } },
       [Ev.statusWrite (stopStatus cfg st inp)]) ∧
    (stopStatus cfg st inp).running = false ∧
    (stopStatus cfg st inp).stopRequested = true := by
  refine ⟨?_, rfl, rfl⟩
  simp [runLoop, runIteration, iterBranch, hstop, stopStatus]

theorem countFullStatus_append (a b : List Ev) :
    countFullStatus (a ++ b) = countFullStatus a + countFullStatus b := by
  simp [countFullStatus, List.filter_append]

theorem publish_count_branch (cfg : Cfg) (st : SvcState) (inp : IterInput) :
    countFullStatus (iterBranch cfg st inp).2.1 =
      if iterFailed cfg st inp then 0 else 1 := by
  unfold iterBranch iterFailed
  cases hs : (read_control inp.ctrlFile).stop
  · cases hp : (read_control inp.ctrlFile).paused
    · by_cases htr : is_trading_time_now inp.now = true ∧ ¬cfg.tracked = []
      · cases hpoll : inp.poll with
        | raise => simp [hs, hp, htr, hpoll, countFullStatus]
        | ok rows =>
          by_cases hr : 0 < rows
          · cases hab : (append_log st.fs.logs rows inp.now.date cfg.retention inp.fault).2
            · simp [hs, hp, htr, hpoll, hr, hab, countFullStatus]
            · simp [hs, hp, htr, hpoll, hr, hab, countFullStatus]
          · simp [hs, hp, htr, hpoll, hr, countFullStatus]
      · simp [hs, hp, htr, countFullStatus]
    · simp [hs, hp, countFullStatus]
  · simp [hs, countFullStatus]

/-- Claim C2 (amended): every iteration performs exactly one full-status
publish in its branch — stop, paused, successful or empty poll, off-hours
idle — except a failed trading poll, which performs none; the end-of-iteration
progress update is a separate read-modify-rewrite, not a full publish. -/
theorem publish_count_iter (cfg : Cfg) (st : SvcState) (inp : IterInput) (lo : Bool) :
    countFullStatus (runIteration cfg st inp lo).2.1 =
      if iterFailed cfg st inp then 0 else 1 := by
  have hb := publish_count_branch cfg st inp
  cases hbe : (iterBranch cfg st inp).2.2
  · simp only [runIteration, hbe]; exact hb
  · simp only [runIteration, hbe]; exact hb
  · cases lo
    · simp only [runIteration, hbe, Bool.false_eq_true, if_false]
      rw [countFullStatus_append]
      simpa [countFullStatus] using hb
    · simp only [runIteration, hbe, if_true]; exact hb








/-- Claim C2 (counterexample): a trading-time iteration whose poll raises ends
(in single-iteration mode) with zero full-status publishes, not exactly one. -/
theorem single_publish_cex :
    read_control wRaiseInput.ctrlFile = ⟨false, false⟩ ∧
    is_trading_time_now wRaiseInput.now = true ∧
    wCfg.tracked ≠ [] ∧
    countFullStatus (runIteration wCfg wSt wRaiseInput true).2.1 = 0 := by
  refine ⟨rfl, rfl, by decide, rfl⟩

/-- Claim C4 (witness): `is_trading_iff` instantiated at Monday 09:30. -/
theorem is_trading_iff_witness :
    ((⟨⟨2025, 3, 3⟩, 0, 9, 30, 0⟩ : DateTime).minute < 60) ∧
    (is_trading_time_now ⟨⟨2025, 3, 3⟩, 0, 9, 30, 0⟩ = true ↔
      ((⟨⟨2025, 3, 3⟩, 0, 9, 30, 0⟩ : DateTime).weekday ≤ 4 ∧
        ((9 * 60 + 30 ≤ 9 * 60 + 30 ∧ 9 * 60 + 30 ≤ 11 * 60 + 30) ∨
         (13 * 60 ≤ 9 * 60 + 30 ∧ 9 * 60 + 30 ≤ 15 * 60)))) :=
  ⟨by decide, is_trading_iff ⟨⟨2025, 3, 3⟩, 0, 9, 30, 0⟩ (by decide)⟩

/-- Claim C9 (witness): `provider_failure_iter` at a concrete trading-time
iteration whose provider raises. -/
theorem provider_failure_witness :
    read_control wRaiseInput.ctrlFile = ⟨false, false⟩ ∧
    is_trading_time_now wRaiseInput.now = true ∧
    wCfg.tracked ≠ [] ∧
    wRaiseInput.poll = PollOutcome.raise ∧
    (runIteration wCfg wSt wRaiseInput false).1.errorCount = wSt.errorCount + 1 ∧
    (runIteration wCfg wSt wRaiseInput false).2.2 = false :=
  ⟨rfl, rfl, by decide, rfl,
   (provider_failure_iter wCfg wSt wRaiseInput rfl rfl (by decide) rfl).1,
   (provider_failure_iter wCfg wSt wRaiseInput rfl rfl (by decide) rfl).2.1⟩

/-- Claim C7 (witness): `off_hours_iter` at a concrete lunch-break iteration. -/
theorem off_hours_witness :
    read_control wOffInput.ctrlFile = ⟨false, false⟩ ∧
    is_trading_time_now wOffInput.now = false ∧
    (runIteration wCfg wSt wOffInput true).1.fs.latest =
      some (LatestFile.heartbeat (fmtDT wOffInput.now)) ∧
    (runIteration wCfg wSt wOffInput true).1.fs.logs = wSt.fs.logs :=
  ⟨rfl, rfl, (off_hours_iter wCfg wSt wOffInput rfl (Or.inl rfl)).1,
   (off_hours_iter wCfg wSt wOffInput rfl (Or.inl rfl)).2.2.1⟩

/-- Claim C8 (witness): `stop_halts` on a concrete two-input schedule whose
first control read requests stop. -/
theorem stop_halts_witness :
    (read_control wStopInput.ctrlFile).stop = true ∧
    runLoop wCfg false wSt [wStopInput, wRaiseInput] =
      ({ wSt with fs := { wSt.fs with
          statusF := some (StatusFile.full (stopStatus wCfg wSt wStopInput)) } },
       [Ev.statusWrite (stopStatus wCfg wSt wStopInput)]) :=
  ⟨rfl, (stop_halts wCfg false wSt wStopInput [wRaiseInput] rfl).1⟩

theorem dlookup_eq_none (k : String) (l : Dict) (h : k ∉ l.map Prod.fst) :
    dlookup k l = none := by
  induction l with
  | nil => rfl
  | cons e rest ih =>
    simp only [List.map_cons, List.mem_cons] at h
    push_neg at h
    simp only [dlookup, if_neg h.1.symm]
    exact ih h.2

theorem dlookup_append (k : String) (a b : Dict) :
    dlookup k (a ++ b) =
      match dlookup k a with
      | some v => some v
      | none => dlookup k b := by
  induction a with
  | nil => rfl
  | cons e rest ih =>
    by_cases he : e.1 = k
    · simp [dlookup, he]
    · simp [dlookup, he, ih]

theorem dlookup_mapRep_self (l : Dict) (k : String) (v : JVal)
    (hm : k ∈ l.map Prod.fst) :
    dlookup k (l.map (fun e => if e.1 = k then (k, v) else e)) = some v := by
  induction l with
  | nil => simp at hm
  | cons e rest ih =>
    simp only [List.map_cons]
    by_cases he : e.1 = k
    · rw [if_pos he]
      simp [dlookup]
    · rw [if_neg he]
      simp only [List.map_cons, List.mem_cons] at hm
      rcases hm with h1 | h2
      · exact absurd h1.symm he
      · simp only [dlookup, if_neg he]
        exact ih h2

theorem dlookup_mapRep_ne (l : Dict) (k k' : String) (v : JVal) (h : k' ≠ k) :
    dlookup k' (l.map (fun e => if e.1 = k then (k, v) else e)) = dlookup k' l := by
  induction l with
  | nil => rfl
  | cons e rest ih =>
    simp only [List.map_cons]
    by_cases he : e.1 = k
    · rw [if_pos he]
      have h1 : ¬(k = k') := fun hh => h hh.symm
      have h2 : ¬(e.1 = k') := by rw [he]; exact h1
      simp only [dlookup, if_neg h1, if_neg h2, ih]
    · rw [if_neg he]
      by_cases he' : e.1 = k'
      · simp only [dlookup, if_pos he']
      · simp only [dlookup, if_neg he', ih]

theorem dlookup_setKey_self (l : Dict) (k : String) (v : JVal) :
    dlookup k (setKey l k v) = some v := by
  unfold setKey
  split
  · rename_i hc
    exact dlookup_mapRep_self l k v (by simpa using hc)
  · rename_i hc
    rw [dlookup_append, dlookup_eq_none k l (by simpa using hc)]
    simp [dlookup]

theorem dlookup_setKey_ne (l : Dict) (k k' : String) (v : JVal) (h : k' ≠ k) :
    dlookup k' (setKey l k v) = dlookup k' l := by
  unfold setKey
  split
  · exact dlookup_mapRep_ne l k k' v h
  · rw [dlookup_append]
    cases hl : dlookup k' l with
    | some v' => rfl
    | none => simp only [dlookup, if_neg (Ne.symm h)]

theorem mapRep_keys (l : Dict) (k : String) (v : JVal) :
    (l.map (fun e => if e.1 = k then (k, v) else e)).map Prod.fst = l.map Prod.fst := by
  induction l with
  | nil => rfl
  | cons e rest ih =>
    simp only [List.map_cons]
    by_cases he : e.1 = k
    · rw [if_pos he, ih, he]
    · rw [if_neg he, ih]

theorem setKey_keys (l : Dict) (k : String) (v : JVal) (hm : k ∈ l.map Prod.fst) :
    (setKey l k v).map Prod.fst = l.map Prod.fst := by
  unfold setKey
  rw [if_pos (by simpa using hm)]
  exact mapRep_keys l k v

theorem dupdate_keys (upd base : Dict)
    (h : ∀ k' ∈ upd.map Prod.fst, k' ∈ base.map Prod.fst) :
    (dupdate base upd).map Prod.fst = base.map Prod.fst := by
  induction upd generalizing base with
  | nil => rfl
  | cons e rest ih =>
    simp only [dupdate]
    have hk : e.1 ∈ base.map Prod.fst := h e.1 (by simp)
    have hkeys := setKey_keys base e.1 e.2 hk
    rw [ih (setKey base e.1 e.2) (fun k' hk' => hkeys ▸ h k' (by simp [hk'])), hkeys]

theorem dlookup_dupdate (upd base : Dict) (h : (upd.map Prod.fst).Nodup) (k : String) :
    dlookup k (dupdate base upd) =
      match dlookup k upd with
      | some v => some v
      | none => dlookup k base := by
  induction upd generalizing base with
  | nil => rfl
  | cons e rest ih =>
    simp only [List.map_cons, List.nodup_cons] at h
    simp only [dupdate]
    rw [ih (setKey base e.1 e.2) h.2]
    by_cases hk : e.1 = k
    · have hnone : dlookup k rest = none :=
        dlookup_eq_none k rest (by rw [← hk]; exact h.1)
      rw [hnone]
      simp only [dlookup, if_pos hk]
      rw [← hk, dlookup_setKey_self]
    · simp only [dlookup, if_neg hk]
      cases hr : dlookup k rest with
      | some v => rfl
      | none => exact dlookup_setKey_ne base e.1 k e.2 (fun hh => hk hh.symm)

theorem dlookup_filterKey (Q : String → Bool) (k : String) (l : Dict) (hQ : Q k = true) :
    dlookup k (l.filter (fun e => Q e.1)) = dlookup k l := by
  induction l with
  | nil => rfl
  | cons e rest ih =>
    by_cases he : e.1 = k
    · have : Q e.1 = true := by rw [he]; exact hQ
      simp only [List.filter_cons, this, if_true, dlookup, if_pos he]
    · cases hq : Q e.1
      · simp only [List.filter_cons, hq, Bool.false_eq_true, if_false, ih, dlookup, if_neg he]
      · simp only [List.filter_cons, hq, if_true, dlookup, if_neg he, ih]

/-- Claim C10: saving a configuration persists exactly the four recognized
keys; a recognized key present in the input keeps the input's value, an absent
one is reset to its built-in default, and the previously persisted file
content is discarded whatever it was. -/
theorem save_config_spec (cfg : Dict) (hnd : (cfg.map Prod.fst).Nodup)
    (prev : Option Dict) :
    save_config cfg prev = some (clean_config cfg) ∧
    (clean_config cfg).map Prod.fst =
      ["tracked_codes", "poll_interval_sec", "alert_threshold_pct", "retention_days"] ∧
    ∀ k, k ∈ DEFAULT_SERVICE_CONFIG.map Prod.fst →
      dlookup k (clean_config cfg) =
        match dlookup k cfg with
        | some v => some v
        | none => dlookup k DEFAULT_SERVICE_CONFIG := by
  have hsub : ∀ k' ∈ (cfg.filter
      (fun e => (DEFAULT_SERVICE_CONFIG.map Prod.fst).contains e.1)).map Prod.fst,
      k' ∈ DEFAULT_SERVICE_CONFIG.map Prod.fst := by
    intro k' hk'
    rcases List.mem_map.mp hk' with ⟨e, he, hfst⟩
    have := List.of_mem_filter he
    rw [← hfst]
    simpa using this
  have hndf : ((cfg.filter
      (fun e => (DEFAULT_SERVICE_CONFIG.map Prod.fst).contains e.1)).map Prod.fst).Nodup :=
    List.Nodup.sublist (List.Sublist.map Prod.fst (List.filter_sublist cfg)) hnd
  refine ⟨rfl, ?_, ?_⟩
  · exact dupdate_keys _ _ hsub
  · intro k hk
    unfold clean_config
    rw [dlookup_dupdate _ _ hndf k,
        dlookup_filterKey _ k cfg (by simpa using hk)]


theorem compressLoop_gzs_mono (today : String) (fl : Fault) (cands : List String)
    (fs : LogFS) (x : String) (hx : x ∈ fs.gzs) :
    x ∈ (compressLoop today fl cands fs).1.gzs := by
  induction cands generalizing fs with
  | nil => exact hx
  | cons p rest ih =>
    unfold compressLoop
    by_cases hpt : p ≠ today
    · rw [if_pos hpt]
      by_cases hmem : fs.gzs.contains (gzName p)
      · rw [if_pos hmem]; exact ih fs hx
      · rw [if_neg hmem]
        cases hcf : fl.compressFails p
        · simp only [Bool.false_eq_true, if_false]
          apply ih
          cases hdf : fl.deleteFails p <;> simp <;> exact Or.inl hx
        · simp only [if_true]; exact hx
    · rw [if_neg hpt]; exact ih fs hx

theorem compressLoop_ok (today : String) (fl : Fault) (cands : List String)
    (fs : LogFS) (hcf : ∀ p, fl.compressFails p = false) :
    (compressLoop today fl cands fs).2 = false ∧
    ∀ p ∈ cands, p ≠ today → gzName p ∈ (compressLoop today fl cands fs).1.gzs := by
  induction cands generalizing fs with
  | nil => exact ⟨rfl, by simp⟩
  | cons p rest ih =>
    unfold compressLoop
    by_cases hpt : p ≠ today
    · rw [if_pos hpt]
      by_cases hmem : fs.gzs.contains (gzName p)
      · rw [if_pos hmem]
        refine ⟨(ih fs).1, ?_⟩
        intro q hq hqt
        rcases List.mem_cons.mp hq with h | h
        · subst h
          exact compressLoop_gzs_mono today fl rest fs (gzName q) (by simpa using hmem)
        · exact (ih fs).2 q h hqt
      · rw [if_neg hmem, hcf p]
        simp only [Bool.false_eq_true, if_false]
        cases hdf : fl.deleteFails p
        · simp only [hdf, Bool.false_eq_true, if_false]
          refine ⟨(ih _).1, ?_⟩
          intro q hq hqt
          rcases List.mem_cons.mp hq with h | h
          · subst h
            exact compressLoop_gzs_mono today fl rest _ (gzName q) (by simp)
          · exact (ih _).2 q h hqt
        · simp only [hdf, if_true]
          refine ⟨(ih _).1, ?_⟩
          intro q hq hqt
          rcases List.mem_cons.mp hq with h | h
          · subst h
            exact compressLoop_gzs_mono today fl rest _ (gzName q) (by simp)
          · exact (ih _).2 q h hqt
    · rw [if_neg hpt]
      refine ⟨(ih fs).1, ?_⟩
      intro q hq hqt
      rcases List.mem_cons.mp hq with h | h
      · subst h
        push_neg at hpt
        exact absurd hpt hqt
      · exact (ih fs).2 q h hqt

theorem find_filter_ne (l : List (String × Nat)) (p t : String) (hpt : p ≠ t) :
    (l.filter (fun e => decide (e.1 ≠ p))).find? (fun e => decide (e.1 = t)) =
      l.find? (fun e => decide (e.1 = t)) := by
  have htp : ¬t = p := fun hh => hpt hh.symm
  have hfun : (fun a : String × Nat =>
      decide (decide (a.1 ≠ p) = true ∧ decide (a.1 = t) = true)) =
      (fun e : String × Nat => decide (e.1 = t)) := by
    funext a
    by_cases h : a.1 = t
    · have hap : a.1 ≠ p := by rw [h]; exact htp
      simp [h, hap, htp]
    · simp [h]
  rw [List.find?_filter, hfun]

theorem compressLoop_today_csv (today : String) (fl : Fault) (cands : List String)
    (fs : LogFS) :
    csvRows (compressLoop today fl cands fs).1 today = csvRows fs today := by
  induction cands generalizing fs with
  | nil => rfl
  | cons p rest ih =>
    unfold compressLoop
    by_cases hpt : p ≠ today
    · rw [if_pos hpt]
      by_cases hmem : fs.gzs.contains (gzName p)
      · rw [if_pos hmem]; exact ih fs
      · rw [if_neg hmem]
        cases hcf : fl.compressFails p
        · simp only [Bool.false_eq_true, if_false]
          cases hdf : fl.deleteFails p
          · simp only [hdf, Bool.false_eq_true, if_false]
            rw [ih _]
            simp only [csvRows]
            rw [find_filter_ne fs.csvs p today hpt]
          · simp only [hdf, if_true]
            exact ih _
        · simp only [if_true]
    · rw [if_neg hpt]; exact ih fs

theorem cleanupLoop_csvs (cutoff : Date) (fl : Fault) (gs : List String) (fs : LogFS) :
    (cleanupLoop cutoff fl gs fs).csvs = fs.csvs := by
  induction gs generalizing fs with
  | nil => rfl
  | cons g rest ih =>
    unfold cleanupLoop
    cases hgd : gzEncodedDate g with
    | none => exact ih fs
    | some d =>
      by_cases hlt : (Date.ltb d cutoff && !fl.deleteFails g) = true
      · simp only [hlt, if_true]
        exact ih _
      · simp only [hlt, if_false]
        exact ih fs

theorem find_bump (l : List (String × Nat)) (n : String) (rows : Nat)
    (hm : n ∈ l.map Prod.fst) :
    ((l.map (fun e => if e.1 = n then (e.1, e.2 + rows) else e)).find?
        (fun e => decide (e.1 = n))).map Prod.snd =
      some ((((l.find? (fun e => decide (e.1 = n))).map Prod.snd).getD 0) + rows) := by
  induction l with
  | nil => simp at hm
  | cons e rest ih =>
    simp only [List.map_cons]
    by_cases he : e.1 = n
    · rw [if_pos he]
      simp [List.find?_cons, he]
    · rw [if_neg he]
      simp only [List.map_cons, List.mem_cons] at hm
      rcases hm with h1 | h2
      · exact absurd h1.symm he
      · simp only [List.find?_cons, he, decide_False, Bool.false_eq_true]
        simpa [he] using ih h2

theorem find_append_none (l l2 : List (String × Nat)) (n : String)
    (h : l.find? (fun e => decide (e.1 = n)) = none) :
    (l ++ l2).find? (fun e => decide (e.1 = n)) = l2.find? (fun e => decide (e.1 = n)) := by
  induction l with
  | nil => rfl
  | cons e rest ih =>
    simp only [List.find?_cons] at h ⊢
    cases hd : decide (e.1 = n)
    · rw [hd] at h
      simp only [List.cons_append, List.find?_cons, hd]
      exact ih h
    · rw [hd] at h
      simp at h

theorem appendCsv_count (fs : LogFS) (n : String) (rows : Nat) :
    csvRows (appendCsv fs n rows) n = some ((csvRows fs n).getD 0 + rows) := by
  unfold appendCsv csvRows
  split
  · rename_i hc
    simpa [csvRows] using find_bump fs.csvs n rows (by simpa using hc)
  · rename_i hc
    have hnone : fs.csvs.find? (fun e => decide (e.1 = n)) = none := by
      apply List.find?_eq_none.mpr
      intro e he
      have : n ∉ fs.csvs.map Prod.fst := by simpa using hc
      simp only [decide_eq_true_eq]
      intro hen
      exact this (List.mem_map.mpr ⟨e, he, hen⟩)
    simp [find_append_none fs.csvs [(n, rows)] n hnone, hnone, List.find?_cons]

theorem csvRows_eq_of_csvs (a b : LogFS) (n : String) (h : a.csvs = b.csvs) :
    csvRows a n = csvRows b n := by
  simp [csvRows, h]

/-- Claim C3 (amended): when no compression fails, one append call never
propagates a failure, today's records are appended, and every non-today
candidate ends up compressed even if any deletions fail (deletion failures
are isolated per file); a compression failure, by contrast, aborts the
remaining housekeeping (see the counterexample), though the day's records
were already appended. -/
theorem housekeeping_deletion_isolated (fs : LogFS) (rows : Nat) (now : Date)
    (retention : Nat) (fl : Fault) (hcf : ∀ p, fl.compressFails p = false) :
    (append_log fs rows now retention fl).2 = false ∧
    csvRows (append_log fs rows now retention fl).1 (logName now) =
      some ((csvRows fs (logName now)).getD 0 + rows) ∧
    ∀ p ∈ (((appendCsv fs (logName now) rows).csvs.map Prod.fst).filter isCsvLog),
      p ≠ logName now →
      gzName p ∈ (compressLoop (logName now) fl
        (((appendCsv fs (logName now) rows).csvs.map Prod.fst).filter isCsvLog)
        (appendCsv fs (logName now) rows)).1.gzs := by
  have hok := compressLoop_ok (logName now) fl
    (((appendCsv fs (logName now) rows).csvs.map Prod.fst).filter isCsvLog)
    (appendCsv fs (logName now) rows) hcf
  refine ⟨?_, ?_, hok.2⟩
  · simp only [append_log]
    rw [hok.1]
    simp
  · simp only [append_log]
    rw [hok.1]
    simp only [Bool.false_eq_true, if_false]
    rw [csvRows_eq_of_csvs _ _ _ (cleanupLoop_csvs _ _ _ _)]
    rw [compressLoop_today_csv]
    exact appendCsv_count fs (logName now) rows


/-- Claim C3 (counterexample): a failing compression of one old log makes the
append call propagate the failure and leaves the other old log unprocessed
(no archive is created for it), so the failure is not isolated to one file;
the day's records were appended before the failure. -/
theorem housekeeping_abort_cex :
    cexFault.compressFails "prices_20250101.csv" = true ∧
    append_log ⟨[("prices_20250101.csv", 1), ("prices_20250102.csv", 1)], []⟩ 2
        ⟨2025, 1, 10⟩ 7 cexFault =
      (⟨[("prices_20250101.csv", 1), ("prices_20250102.csv", 1),
         ("prices_20250110.csv", 2)], []⟩, true) :=
  ⟨rfl, rfl⟩


/-- Claim C3 (witness): the amended theorem at a concrete directory where the
deletion of the old log fails. -/
theorem housekeeping_deletion_isolated_witness :
    (∀ p, wDelFault.compressFails p = false) ∧
    (append_log ⟨[("prices_20250101.csv", 1)], []⟩ 2 ⟨2025, 1, 10⟩ 7 wDelFault).2 = false ∧
    csvRows (append_log ⟨[("prices_20250101.csv", 1)], []⟩ 2 ⟨2025, 1, 10⟩ 7 wDelFault).1
        (logName ⟨2025, 1, 10⟩) =
      some ((csvRows ⟨[("prices_20250101.csv", 1)], []⟩ (logName ⟨2025, 1, 10⟩)).getD 0 + 2) :=
  ⟨fun _ => rfl,
   (housekeeping_deletion_isolated ⟨[("prices_20250101.csv", 1)], []⟩ 2 ⟨2025, 1, 10⟩ 7
     wDelFault (fun _ => rfl)).1,
   (housekeeping_deletion_isolated ⟨[("prices_20250101.csv", 1)], []⟩ 2 ⟨2025, 1, 10⟩ 7
     wDelFault (fun _ => rfl)).2.1⟩

theorem digitChar_toNat (n : Nat) (h : n ≤ 9) : (digitChar n).toNat = 48 + n := by
  interval_cases n <;> decide

theorem charDigit_digitChar (n : Nat) (h : n ≤ 9) : charDigit (digitChar n) = some n := by
  interval_cases n <;> decide

theorem daysInMonth_ge (y m : Nat) : 28 ≤ daysInMonth y m := by
  unfold daysInMonth
  split
  · split <;> omega
  · split <;> omega

theorem daysInMonth_le (y m : Nat) : daysInMonth y m ≤ 31 := by
  unfold daysInMonth
  split
  · split <;> omega
  · split <;> omega

theorem predDay_spec (a : Date) (hv : a.validb = true) (hy : 2 ≤ a.y) :
    (predDay a).validb = true ∧ a.y - 1 ≤ (predDay a).y ∧ (predDay a).y ≤ a.y ∧
    Date.ltb (predDay a) a = true := by
  have hm := daysInMonth_ge a.y (a.m - 1)
  have h12' : daysInMonth (a.y - 1) 12 = 31 := by unfold daysInMonth; norm_num
  simp only [Date.validb, Bool.and_eq_true, decide_eq_true_eq] at hv
  unfold predDay
  by_cases h1 : 2 ≤ a.d
  · rw [if_pos h1]
    simp only [Date.validb, Date.ltb, Bool.and_eq_true, Bool.or_eq_true,
        decide_eq_true_eq, true_and, and_true]
    omega
  · rw [if_neg h1]
    by_cases h2 : 2 ≤ a.m
    · rw [if_pos h2]
      simp only [Date.validb, Date.ltb, Bool.and_eq_true, Bool.or_eq_true,
        decide_eq_true_eq, true_and, and_true]
      omega
    · rw [if_neg h2]
      simp only [Date.validb, Date.ltb, Bool.and_eq_true, Bool.or_eq_true,
        decide_eq_true_eq, true_and, and_true]
      omega

theorem subDays_add (a : Date) (x z : Nat) :
    subDays a (x + z) = subDays (subDays a x) z := by
  induction x generalizing a with
  | zero => rw [Nat.zero_add]; rfl
  | succ n ih =>
    have h1 : n + 1 + z = (n + z) + 1 := by omega
    rw [h1]
    show subDays (predDay a) (n + z) = subDays (subDays a (n + 1)) z
    rw [ih (predDay a)]
    rfl

theorem ltb_trans (a b c : Date) (h1 : Date.ltb a b = true) (h2 : Date.ltb b c = true) :
    Date.ltb a c = true := by
  simp only [Date.ltb, Bool.and_eq_true, Bool.or_eq_true, decide_eq_true_eq] at h1 h2 ⊢
  omega

theorem ltb_asymm (a b : Date) (h : Date.ltb a b = true) : Date.ltb b a = false := by
  rw [← Bool.not_eq_true]
  intro hc
  simp only [Date.ltb, Bool.and_eq_true, Bool.or_eq_true, decide_eq_true_eq] at h hc
  omega

theorem ltb_irrefl (a : Date) : Date.ltb a a = false := by
  simp only [Date.ltb]
  simp

theorem subDays_spec (n : Nat) (a : Date) (hv : a.validb = true) (hy : n + 1 ≤ a.y) :
    (subDays a n).validb = true ∧ a.y - n ≤ (subDays a n).y ∧ (subDays a n).y ≤ a.y ∧
    (1 ≤ n → Date.ltb (subDays a n) a = true) := by
  induction n generalizing a with
  | zero =>
    simp only [subDays]
    exact ⟨hv, by omega, by omega, by omega⟩
  | succ k ih =>
    have hp := predDay_spec a hv (by omega)
    have hk := ih (predDay a) hp.1 (by omega)
    have hss : subDays a (k + 1) = subDays (predDay a) k := rfl
    rw [hss]
    refine ⟨hk.1, by omega, by omega, fun _ => ?_⟩
    by_cases h0 : 1 ≤ k
    · exact ltb_trans _ _ _ (hk.2.2.2 h0) hp.2.2.2
    · have hk0 : k = 0 := by omega
      subst hk0
      exact hp.2.2.2

theorem subDays_ltb_lt (a : Date) (hv : a.validb = true) (hy : 11 ≤ a.y)
    (i j : Nat) (hij : i < j) (hj : j ≤ 10) :
    Date.ltb (subDays a j) (subDays a i) = true := by
  have hi := subDays_spec i a hv (by omega)
  have hadd : subDays a j = subDays (subDays a i) (j - i) := by
    rw [← subDays_add]
    congr 1
    omega
  rw [hadd]
  have hs := subDays_spec (j - i) (subDays a i) hi.1 (by omega)
  exact hs.2.2.2 (by omega)

theorem strptime_dayStr (a : Date) (hv : a.validb = true)
    (h1 : 1000 ≤ a.y) (h2 : a.y ≤ 9999) :
    strptimeDate (dayStr a) = some a := by
  have hdm := daysInMonth_le a.y a.m
  simp only [Date.validb, Bool.and_eq_true, decide_eq_true_eq] at hv
  have e1 := charDigit_digitChar (a.y / 1000 % 10) (by omega)
  have e2 := charDigit_digitChar (a.y / 100 % 10) (by omega)
  have e3 := charDigit_digitChar (a.y / 10 % 10) (by omega)
  have e4 := charDigit_digitChar (a.y % 10) (by omega)
  have e5 := charDigit_digitChar (a.m / 10 % 10) (by omega)
  have e6 := charDigit_digitChar (a.m % 10) (by omega)
  have e7 := charDigit_digitChar (a.d / 10 % 10) (by omega)
  have e8 := charDigit_digitChar (a.d % 10) (by omega)
  have hY : a.y / 1000 % 10 * 1000 + a.y / 100 % 10 * 100 + a.y / 10 % 10 * 10 + a.y % 10
      = a.y := by omega
  have hM : a.m / 10 % 10 * 10 + a.m % 10 = a.m := by omega
  have hD : a.d / 10 % 10 * 10 + a.d % 10 = a.d := by omega
  have hlist : (dayStr a).toList =
      [digitChar (a.y / 1000 % 10), digitChar (a.y / 100 % 10), digitChar (a.y / 10 % 10),
       digitChar (a.y % 10), digitChar (a.m / 10 % 10), digitChar (a.m % 10),
       digitChar (a.d / 10 % 10), digitChar (a.d % 10)] := by
    simp [dayStr, dayChars, year4Chars, pad2Chars, String.toList]
  unfold strptimeDate
  rw [hlist]
  simp only [e1, e2, e3, e4, e5, e6, e7, e8, hY, hM, hD]
  rw [if_pos ⟨by omega, by omega, hv.1.1.2, by omega, hv.2⟩]

theorem dropWhile_append_all {p : Char → Bool} (l1 l2 : List Char)
    (h : ∀ c ∈ l1, p c = true) :
    (l1 ++ l2).dropWhile p = l2.dropWhile p := by
  induction l1 with
  | nil => rfl
  | cons c rest ih =>
    simp only [List.cons_append, List.dropWhile_cons, h c (by simp)]
    exact ih (fun c hc => h c (by simp [hc]))

theorem stemChars_append_gz (l : List Char) (m : List Char) (hm : '.' ∉ m) :
    stemChars (l ++ '.' :: m) = l := by
  unfold stemChars
  have hrev : (l ++ '.' :: m).reverse = m.reverse ++ '.' :: l.reverse := by
    simp
  rw [hrev]
  rw [dropWhile_append_all m.reverse ('.' :: l.reverse)
    (fun c hc => by
      simp only [List.mem_reverse] at hc
      simp [fun h : c = '.' => hm (h ▸ hc)]
      exact fun h => hm (h ▸ hc))]
  simp [List.dropWhile_cons]

theorem splitOnChar_no_sep (sep : Char) (l : List Char) (h : sep ∉ l) :
    splitOnChar sep l = [l] := by
  induction l with
  | nil => rfl
  | cons c rest ih =>
    have hc : ¬c = sep := fun hh => h (by simp [hh])
    simp only [splitOnChar, if_neg hc, ih (fun hh => h (by simp [hh]))]

theorem splitOnChar_append (sep : Char) (l1 l2 : List Char) (h1 : sep ∉ l1) :
    splitOnChar sep (l1 ++ sep :: l2) = l1 :: splitOnChar sep l2 := by
  induction l1 with
  | nil => simp [splitOnChar]
  | cons c rest ih =>
    have hc : ¬c = sep := fun hh => h1 (by simp [hh])
    have ihr := ih (fun hh => h1 (by simp [hh]))
    simp only [List.cons_append, splitOnChar, if_neg hc]
    rw [show rest.append (sep :: l2) = rest ++ sep :: l2 from rfl, ihr]

theorem stripCsvOcc_cons_ne (c : Char) (rest : List Char) (h : c ≠ '.') :
    stripCsvOcc (c :: rest) = c :: stripCsvOcc rest := by
  rw [stripCsvOcc.eq_def]
  split
  · rename_i heq
    injection heq with h1 h2
    exact absurd h1 h
  · rename_i heq
    injection heq with h1 h2
    rw [h1, h2]
  · rename_i heq
    exact absurd heq (by simp)

theorem stripCsvOcc_append (l : List Char) (h : ∀ c ∈ l, c ≠ '.') :
    stripCsvOcc (l ++ ['.', 'c', 's', 'v']) = l := by
  induction l with
  | nil => rfl
  | cons c rest ih =>
    simp only [List.cons_append]
    rw [stripCsvOcc_cons_ne c _ (h c (by simp))]
    rw [ih (fun x hx => h x (by simp [hx]))]

theorem strToList_append (s t : String) : (s ++ t).toList = s.toList ++ t.toList := by
  simp [String.toList, String.data_append]

theorem dayChars_digit (a : Date) : ∀ c ∈ dayChars a, 48 ≤ c.toNat ∧ c.toNat ≤ 57 := by
  intro c hc
  simp only [dayChars, year4Chars, pad2Chars, List.append_assoc, List.mem_append,
    List.mem_cons, List.not_mem_nil, or_false] at hc
  rcases hc with (h | h | h | h) | (h | h) | (h | h) <;>
    (subst h; rw [digitChar_toNat _ (by omega)]; omega)

theorem dayChars_ne_dot (a : Date) : ∀ c ∈ dayChars a, c ≠ '.' := by
  intro c hc he
  have := dayChars_digit a c hc
  rw [he] at this
  revert this
  decide

theorem dayChars_ne_us (a : Date) : ∀ c ∈ dayChars a, c ≠ '_' := by
  intro c hc he
  have := dayChars_digit a c hc
  rw [he] at this
  revert this
  decide


theorem gzArch_toList (d : Date) :
    (gzArch d).toList =
      ("prices".toList ++ '_' :: (dayChars d ++ ['.', 'c', 's', 'v'])) ++
        '.' :: ['g', 'z'] := by
  unfold gzArch
  rw [strToList_append, strToList_append]
  show "prices_".toList ++ (dayStr d).toList ++ ".csv.gz".toList = _
  have h1 : (dayStr d).toList = dayChars d := rfl
  rw [h1]
  simp [List.append_assoc]

theorem pyStem_gzArch (d : Date) :
    (pyStem (gzArch d)).toList = "prices".toList ++ '_' :: (dayChars d ++ ['.', 'c', 's', 'v']) := by
  unfold pyStem
  rw [gzArch_toList]
  rw [stemChars_append_gz _ ['g', 'z'] (by decide)]
  rfl

theorem gzEncodedDate_arch (d : Date) (hv : d.validb = true)
    (h1 : 1000 ≤ d.y) (h2 : d.y ≤ 9999) :
    gzEncodedDate (gzArch d) = some d := by
  unfold gzEncodedDate
  rw [pyStem_gzArch]
  rw [splitOnChar_append '_' "prices".toList (dayChars d ++ ['.', 'c', 's', 'v']) (by decide)]
  rw [splitOnChar_no_sep '_' (dayChars d ++ ['.', 'c', 's', 'v'])
    (by
      intro hmem
      rcases List.mem_append.mp hmem with h | h
      · exact dayChars_ne_us d '_' h rfl
      · revert h; decide)]
  simp only [List.drop_succ_cons, List.drop_zero]
  rw [stripCsvOcc_append (dayChars d) (dayChars_ne_dot d)]
  exact strptime_dayStr d hv h1 h2

theorem isPrefixOf_self_append (l t : List Char) :
    List.isPrefixOf l (l ++ t) = true := by
  induction l with
  | nil => simp [List.isPrefixOf]
  | cons c rest ih => simp [List.isPrefixOf, ih]

theorem isGzLog_arch (d : Date) : isGzLog (gzArch d) = true := by
  unfold isGzLog
  have hfull : (gzArch d).toList =
      "prices_".toList ++ dayChars d ++ ['.', 'c', 's', 'v', '.', 'g', 'z'] := by
    rw [gzArch_toList]
    simp
  rw [hfull, Bool.and_eq_true]
  constructor
  · rw [List.append_assoc]
    exact isPrefixOf_self_append _ _
  · rw [List.isSuffixOf_iff_suffix]
    show ".csv.gz".toList <:+ _
    have hs : ".csv.gz".toList = ['.', 'c', 's', 'v', '.', 'g', 'z'] := rfl
    rw [hs]
    exact List.suffix_append _ _


theorem cleanupLoop_gzs (cutoff : Date) (fl : Fault) (gs : List String) (fs : LogFS) :
    (cleanupLoop cutoff fl gs fs).gzs =
      fs.gzs.filter (fun x => !(gs.contains x && delp cutoff fl x)) := by
  induction gs generalizing fs with
  | nil =>
    simp [cleanupLoop, List.contains]
  | cons g rest ih =>
    have hstep : cleanupLoop cutoff fl (g :: rest) fs =
        cleanupLoop cutoff fl rest
          (if delp cutoff fl g then { fs with gzs := fs.gzs.filter (fun x => x ≠ g) }
           else fs) := by
      show cleanupLoop cutoff fl rest
          (match gzEncodedDate g with
           | none => fs
           | some d =>
             if Date.ltb d cutoff && !fl.deleteFails g then
               { fs with gzs := fs.gzs.filter (fun x => x ≠ g) }
             else fs) = _
      congr 1
      unfold delp
      cases hgd : gzEncodedDate g
      · simp
      · rfl
    rw [hstep]
    cases hd : delp cutoff fl g
    · simp only [Bool.false_eq_true, if_false]
      rw [ih fs]
      apply List.filter_congr
      intro x _
      by_cases hxg : x = g
      · subst hxg
        simp [hd, List.contains_cons]
      · simp [List.contains_cons, hxg, Ne.symm hxg]
    · simp only [if_true]
      rw [ih _]
      simp only []
      rw [List.filter_filter]
      apply List.filter_congr
      intro x _
      by_cases hxg : x = g
      · subst hxg
        simp [hd, List.contains_cons]
      · simp [List.contains_cons, hxg, Ne.symm hxg]

theorem compressLoop_skip (today : String) (fl : Fault) (cands : List String)
    (fs : LogFS) (h : ∀ p ∈ cands, p = today) :
    compressLoop today fl cands fs = (fs, false) := by
  induction cands with
  | nil => rfl
  | cons p rest ih =>
    unfold compressLoop
    rw [if_neg (by simpa using h p (by simp))]
    exact ih (fun q hq => h q (by simp [hq]))

theorem logfs_eq_mk (x : LogFS) (a : List (String × Nat)) (b : List String)
    (h1 : x.csvs = a) (h2 : x.gzs = b) : x = ⟨a, b⟩ := by
  cases x
  cases h1
  cases h2
  rfl

/-- Claim C6: with archives dated `D-1 … D-10` on disk and `retention_days = 7`,
running the append-log housekeeping at date `D` deletes exactly the archives
dated `D-8`, `D-9`, `D-10` — those whose filename-encoded date is before the
cutoff — and keeps `D-1 … D-7`. -/
theorem retention_window (D : Date) (rows : Nat) (hv : D.validb = true)
    (hy1 : 1011 ≤ D.y) (hy2 : D.y ≤ 9999) :
    append_log
      ⟨[], [gzArch (subDays D 1),
       gzArch (subDays D 2),
       gzArch (subDays D 3),
       gzArch (subDays D 4),
       gzArch (subDays D 5),
       gzArch (subDays D 6),
       gzArch (subDays D 7),
       gzArch (subDays D 8),
       gzArch (subDays D 9),
       gzArch (subDays D 10)]⟩ rows D 7 noFault =
    (⟨[(logName D, rows)], [gzArch (subDays D 1), gzArch (subDays D 2), gzArch (subDays D 3), gzArch (subDays D 4), gzArch (subDays D 5), gzArch (subDays D 6), gzArch (subDays D 7)]⟩, false) := by
  have hdelp : ∀ k, 1 ≤ k → k ≤ 10 →
      delp (subDays D 7) noFault (gzArch (subDays D k)) =
        Date.ltb (subDays D k) (subDays D 7) := by
    intro k h1 h10
    have hs := subDays_spec k D hv (by omega)
    unfold delp
    rw [gzEncodedDate_arch (subDays D k) hs.1 (by omega) (by omega)]
    simp [noFault]
  have hlt_le : ∀ k, 1 ≤ k → k ≤ 7 →
      Date.ltb (subDays D k) (subDays D 7) = false := by
    intro k h1 h7
    by_cases h : k = 7
    · subst h
      exact ltb_irrefl _
    · exact ltb_asymm _ _ (subDays_ltb_lt D hv (by omega) k 7 (by omega) (by omega))
  have hlt_gt : ∀ k, 8 ≤ k → k ≤ 10 →
      Date.ltb (subDays D k) (subDays D 7) = true := by
    intro k h8 h10
    exact subDays_ltb_lt D hv (by omega) 7 k (by omega) (by omega)
  have hd1 : delp (subDays D 7) noFault (gzArch (subDays D 1)) = false := by
    rw [hdelp 1 (by omega) (by omega)]
    exact hlt_le 1 (by omega) (by omega)
  have hd2 : delp (subDays D 7) noFault (gzArch (subDays D 2)) = false := by
    rw [hdelp 2 (by omega) (by omega)]
    exact hlt_le 2 (by omega) (by omega)
  have hd3 : delp (subDays D 7) noFault (gzArch (subDays D 3)) = false := by
    rw [hdelp 3 (by omega) (by omega)]
    exact hlt_le 3 (by omega) (by omega)
  have hd4 : delp (subDays D 7) noFault (gzArch (subDays D 4)) = false := by
    rw [hdelp 4 (by omega) (by omega)]
    exact hlt_le 4 (by omega) (by omega)
  have hd5 : delp (subDays D 7) noFault (gzArch (subDays D 5)) = false := by
    rw [hdelp 5 (by omega) (by omega)]
    exact hlt_le 5 (by omega) (by omega)
  have hd6 : delp (subDays D 7) noFault (gzArch (subDays D 6)) = false := by
    rw [hdelp 6 (by omega) (by omega)]
    exact hlt_le 6 (by omega) (by omega)
  have hd7 : delp (subDays D 7) noFault (gzArch (subDays D 7)) = false := by
    rw [hdelp 7 (by omega) (by omega)]
    exact hlt_le 7 (by omega) (by omega)
  have hd8 : delp (subDays D 7) noFault (gzArch (subDays D 8)) = true := by
    rw [hdelp 8 (by omega) (by omega)]
    exact hlt_gt 8 (by omega) (by omega)
  have hd9 : delp (subDays D 7) noFault (gzArch (subDays D 9)) = true := by
    rw [hdelp 9 (by omega) (by omega)]
    exact hlt_gt 9 (by omega) (by omega)
  have hd10 : delp (subDays D 7) noFault (gzArch (subDays D 10)) = true := by
    rw [hdelp 10 (by omega) (by omega)]
    exact hlt_gt 10 (by omega) (by omega)
  have hm1 : ([gzArch (subDays D 1),
       gzArch (subDays D 2),
       gzArch (subDays D 3),
       gzArch (subDays D 4),
       gzArch (subDays D 5),
       gzArch (subDays D 6),
       gzArch (subDays D 7),
       gzArch (subDays D 8),
       gzArch (subDays D 9),
       gzArch (subDays D 10)]).contains (gzArch (subDays D 1)) = true := by simp
  have hm2 : ([gzArch (subDays D 1),
       gzArch (subDays D 2),
       gzArch (subDays D 3),
       gzArch (subDays D 4),
       gzArch (subDays D 5),
       gzArch (subDays D 6),
       gzArch (subDays D 7),
       gzArch (subDays D 8),
       gzArch (subDays D 9),
       gzArch (subDays D 10)]).contains (gzArch (subDays D 2)) = true := by simp
  have hm3 : ([gzArch (subDays D 1),
       gzArch (subDays D 2),
       gzArch (subDays D 3),
       gzArch (subDays D 4),
       gzArch (subDays D 5),
       gzArch (subDays D 6),
       gzArch (subDays D 7),
       gzArch (subDays D 8),
       gzArch (subDays D 9),
       gzArch (subDays D 10)]).contains (gzArch (subDays D 3)) = true := by simp
  have hm4 : ([gzArch (subDays D 1),
       gzArch (subDays D 2),
       gzArch (subDays D 3),
       gzArch (subDays D 4),
       gzArch (subDays D 5),
       gzArch (subDays D 6),
       gzArch (subDays D 7),
       gzArch (subDays D 8),
       gzArch (subDays D 9),
       gzArch (subDays D 10)]).contains (gzArch (subDays D 4)) = true := by simp
  have hm5 : ([gzArch (subDays D 1),
       gzArch (subDays D 2),
       gzArch (subDays D 3),
       gzArch (subDays D 4),
       gzArch (subDays D 5),
       gzArch (subDays D 6),
       gzArch (subDays D 7),
       gzArch (subDays D 8),
       gzArch (subDays D 9),
       gzArch (subDays D 10)]).contains (gzArch (subDays D 5)) = true := by simp
  have hm6 : ([gzArch (subDays D 1),
       gzArch (subDays D 2),
       gzArch (subDays D 3),
       gzArch (subDays D 4),
       gzArch (subDays D 5),
       gzArch (subDays D 6),
       gzArch (subDays D 7),
       gzArch (subDays D 8),
       gzArch (subDays D 9),
       gzArch (subDays D 10)]).contains (gzArch (subDays D 6)) = true := by simp
  have hm7 : ([gzArch (subDays D 1),
       gzArch (subDays D 2),
       gzArch (subDays D 3),
       gzArch (subDays D 4),
       gzArch (subDays D 5),
       gzArch (subDays D 6),
       gzArch (subDays D 7),
       gzArch (subDays D 8),
       gzArch (subDays D 9),
       gzArch (subDays D 10)]).contains (gzArch (subDays D 7)) = true := by simp
  have hm8 : ([gzArch (subDays D 1),
       gzArch (subDays D 2),
       gzArch (subDays D 3),
       gzArch (subDays D 4),
       gzArch (subDays D 5),
       gzArch (subDays D 6),
       gzArch (subDays D 7),
       gzArch (subDays D 8),
       gzArch (subDays D 9),
       gzArch (subDays D 10)]).contains (gzArch (subDays D 8)) = true := by simp
  have hm9 : ([gzArch (subDays D 1),
       gzArch (subDays D 2),
       gzArch (subDays D 3),
       gzArch (subDays D 4),
       gzArch (subDays D 5),
       gzArch (subDays D 6),
       gzArch (subDays D 7),
       gzArch (subDays D 8),
       gzArch (subDays D 9),
       gzArch (subDays D 10)]).contains (gzArch (subDays D 9)) = true := by simp
  have hm10 : ([gzArch (subDays D 1),
       gzArch (subDays D 2),
       gzArch (subDays D 3),
       gzArch (subDays D 4),
       gzArch (subDays D 5),
       gzArch (subDays D 6),
       gzArch (subDays D 7),
       gzArch (subDays D 8),
       gzArch (subDays D 9),
       gzArch (subDays D 10)]).contains (gzArch (subDays D 10)) = true := by simp
  have h0 : appendCsv ⟨[], [gzArch (subDays D 1),
       gzArch (subDays D 2),
       gzArch (subDays D 3),
       gzArch (subDays D 4),
       gzArch (subDays D 5),
       gzArch (subDays D 6),
       gzArch (subDays D 7),
       gzArch (subDays D 8),
       gzArch (subDays D 9),
       gzArch (subDays D 10)]⟩ (logName D) rows =
      (⟨[(logName D, rows)], [gzArch (subDays D 1),
       gzArch (subDays D 2),
       gzArch (subDays D 3),
       gzArch (subDays D 4),
       gzArch (subDays D 5),
       gzArch (subDays D 6),
       gzArch (subDays D 7),
       gzArch (subDays D 8),
       gzArch (subDays D 9),
       gzArch (subDays D 10)]⟩ : LogFS) := by
    simp [appendCsv, List.contains]
  have hskip : compressLoop (logName D) noFault
      ((([(logName D, rows)] : List (String × Nat)).map Prod.fst).filter isCsvLog)
      ⟨[(logName D, rows)], [gzArch (subDays D 1),
       gzArch (subDays D 2),
       gzArch (subDays D 3),
       gzArch (subDays D 4),
       gzArch (subDays D 5),
       gzArch (subDays D 6),
       gzArch (subDays D 7),
       gzArch (subDays D 8),
       gzArch (subDays D 9),
       gzArch (subDays D 10)]⟩ =
      (⟨[(logName D, rows)], [gzArch (subDays D 1),
       gzArch (subDays D 2),
       gzArch (subDays D 3),
       gzArch (subDays D 4),
       gzArch (subDays D 5),
       gzArch (subDays D 6),
       gzArch (subDays D 7),
       gzArch (subDays D 8),
       gzArch (subDays D 9),
       gzArch (subDays D 10)]⟩, false) := by
    apply compressLoop_skip
    intro p hp
    have := List.mem_filter.mp hp
    simpa using this.1
  have hgzf : ([gzArch (subDays D 1),
       gzArch (subDays D 2),
       gzArch (subDays D 3),
       gzArch (subDays D 4),
       gzArch (subDays D 5),
       gzArch (subDays D 6),
       gzArch (subDays D 7),
       gzArch (subDays D 8),
       gzArch (subDays D 9),
       gzArch (subDays D 10)] : List String).filter isGzLog = [gzArch (subDays D 1),
       gzArch (subDays D 2),
       gzArch (subDays D 3),
       gzArch (subDays D 4),
       gzArch (subDays D 5),
       gzArch (subDays D 6),
       gzArch (subDays D 7),
       gzArch (subDays D 8),
       gzArch (subDays D 9),
       gzArch (subDays D 10)] := by
    simp [isGzLog_arch]
  simp only [append_log]
  rw [h0, hskip]
  simp only [Bool.false_eq_true, if_false]
  rw [hgzf]
  refine Prod.ext ?_ rfl
  show cleanupLoop (subDays D 7) noFault _ _ = _
  apply logfs_eq_mk
  · exact cleanupLoop_csvs _ _ _ _
  · rw [cleanupLoop_gzs]
    simp only [List.filter_cons, List.filter_nil, hd1, hd2, hd3, hd4, hd5, hd6, hd7,
      hd8, hd9, hd10, hm1, hm2, hm3, hm4, hm5, hm6, hm7, hm8, hm9, hm10,
      Bool.true_and, Bool.not_false, Bool.not_true, if_true, Bool.false_eq_true, if_false]


/-- Claim C6 (witness): `retention_window` at the concrete date 2025-05-20. -/
theorem retention_window_witness :
    wD.validb = true ∧ 1011 ≤ wD.y ∧ wD.y ≤ 9999 ∧
    append_log ⟨[], [gzArch (subDays wD 1), gzArch (subDays wD 2), gzArch (subDays wD 3), gzArch (subDays wD 4), gzArch (subDays wD 5), gzArch (subDays wD 6), gzArch (subDays wD 7), gzArch (subDays wD 8), gzArch (subDays wD 9), gzArch (subDays wD 10)]⟩ 1 wD 7 noFault =
      (⟨[(logName wD, 1)], [gzArch (subDays wD 1), gzArch (subDays wD 2), gzArch (subDays wD 3), gzArch (subDays wD 4), gzArch (subDays wD 5), gzArch (subDays wD 6), gzArch (subDays wD 7)]⟩, false) :=
  ⟨by decide, by decide, by decide,
   retention_window wD 1 (by decide) (by decide) (by decide)⟩

/-- Claim C10 (witness): instantiating `save_config_spec` at a concrete dict
with one junk key and a stale previous file. -/
theorem save_config_spec_witness :
    ((wCfgDict.map Prod.fst).Nodup) ∧
    save_config wCfgDict (some [("retention_days", JVal.num 9)]) =
      some (clean_config wCfgDict) ∧
    (clean_config wCfgDict).map Prod.fst =
      ["tracked_codes", "poll_interval_sec", "alert_threshold_pct", "retention_days"] :=
  ⟨by decide,
   (save_config_spec wCfgDict (by decide) (some [("retention_days", JVal.num 9)])).1,
   (save_config_spec wCfgDict (by decide) (some [("retention_days", JVal.num 9)])).2.1⟩
